import Mathlib

/-!
Verification development for the book-catalog manager (`main.py`).

The program keeps a table of books in a spreadsheet, resolves column roles by
substring markers, normalizes text on save, and offers insert / delete /
duplicate-check operations.  This file gives a shallow embedding of that
logic and proves or refutes the specification's claims about it.

Strings are modelled as lists of Unicode code points (`Nat`); the ASCII
fragment of Python's case and whitespace operations is embedded explicitly.
-/

set_option synthInstance.maxSize 1024

/-- Strings are modelled as lists of code points. -/
abbrev Str := List Nat

/-- Code points of a Lean string literal, used for concrete examples. -/
def str (s : String) : Str := s.toList.map Char.toNat

/-- Whitespace recognized by Python's `str.strip` and the regex `\s`
(ASCII fragment): space, tab, LF, VT, FF, CR. -/
def isWS (c : Nat) : Bool :=
  decide (c = 32 ∨ c = 9 ∨ c = 10 ∨ c = 11 ∨ c = 12 ∨ c = 13)

/-- ASCII fragment of Python lower-casing on one code point. -/
def lowC (c : Nat) : Nat := if 65 ≤ c ∧ c ≤ 90 then c + 32 else c

/-- ASCII fragment of Python upper-casing on one code point. -/
def upC (c : Nat) : Nat := if 97 ≤ c ∧ c ≤ 122 then c - 32 else c

/-- Python `str.lower` (ASCII fragment). -/
def lower (s : Str) : Str := s.map lowC

/-- Python `str.capitalize`: first code point upper-cased, all remaining
code points lower-cased. -/
def capitalize : Str → Str
  | [] => []
  | c :: cs => upC c :: cs.map lowC

/-- Python `str.strip`: drop whitespace from both ends. -/
def pyStrip (s : Str) : Str := List.rdropWhile isWS (s.dropWhile isWS)

/-- Substitution of the regex `\s+` by a single space, run-collapsing view:
every maximal whitespace run becomes one space.  (Reference form; the
executable form `collapseWS` below is proved equal to it.) -/
def collapseR : Str → Str
  | [] => []
  | c :: cs =>
    if isWS c then 32 :: collapseR (cs.dropWhile isWS)
    else c :: collapseR cs
termination_by s => s.length
decreasing_by
  · exact Nat.lt_succ_of_le (List.dropWhile_sublist isWS).length_le
  · exact Nat.lt_succ_self _

/-- Structural scanner for `collapseR`: the flag records whether the
previous code point was whitespace (i.e. the current whitespace run has
already emitted its space). -/
def collapseAux : Bool → Str → Str
  | _, [] => []
  | prevWS, c :: cs =>
    if isWS c then
      if prevWS then collapseAux true cs else 32 :: collapseAux true cs
    else c :: collapseAux false cs

/-- Substitution of the regex `\s+` by a single space, as in
`Series.replace(r"\s+", " ", regex=True)` and `.str.replace(r"\s+", " ")`. -/
def collapseWS (s : Str) : Str := collapseAux false s

/-- Line 48 of `main.py` on one value: `x.str.strip()` followed by
`.replace(r"\s+", " ", regex=True)` — strip, then collapse whitespace runs. -/
def normWS (s : Str) : Str := collapseWS (pyStrip s)

/-- Python's substring test `needle in hay`. -/
def containsSub (needle : Str) : Str → Bool
  | [] => needle == []
  | c :: t => needle.isPrefixOf (c :: t) || containsSub needle t

/-- Line 87 of `main.py`: `df.columns.str.strip().str.lower()`. -/
def normName (s : Str) : Str := lower (pyStrip s)

/-- The `col_map` dictionary of `main.py` (lines 91-102): at most one column
name per role. -/
structure ColMap where
  taal : Option Str
  locatie : Option Str
  titel : Option Str
  schrijver : Option Str
  categorie : Option Str
deriving DecidableEq

/-- The empty `col_map` dictionary. -/
def ColMap.empty : ColMap := ⟨none, none, none, none, none⟩

/-- One iteration of the `for c in df.columns` loop of lines 92-102: each
matching role key is assigned `c`, unconditionally overwriting any earlier
assignment (Python dictionary assignment). -/
def colMapStep (m : ColMap) (c : Str) : ColMap :=
  let m1 := if containsSub (str "taal") c then { m with taal := some c } else m
  let m2 := if containsSub (str "locatie") c then { m1 with locatie := some c } else m1
  let m3 := if containsSub (str "titel") c then { m2 with titel := some c } else m2
  let m4 := if containsSub (str "schrijver") c || containsSub (str "auteur") c then
              { m3 with schrijver := some c } else m3
  if containsSub (str "categorie") c then { m4 with categorie := some c } else m4

/-- Lines 91-102 of `main.py`: the `col_map` loop over (already normalized)
column names, in their table order. -/
def colMap (cols : List Str) : ColMap := cols.foldl colMapStep ColMap.empty

/-- Role resolution over raw column names: the normalization of line 87
followed by the `col_map` loop of lines 91-102. -/
def resolveRoles (cols : List Str) : ColMap := colMap (cols.map normName)

-- Accessor equations for one loop iteration.

theorem colMapStep_taal (m : ColMap) (c : Str) :
    (colMapStep m c).taal = if containsSub (str "taal") c then some c else m.taal := by
  simp only [colMapStep]
  split_ifs <;> rfl

theorem colMapStep_locatie (m : ColMap) (c : Str) :
    (colMapStep m c).locatie = if containsSub (str "locatie") c then some c else m.locatie := by
  simp only [colMapStep]
  split_ifs <;> rfl

theorem colMapStep_titel (m : ColMap) (c : Str) :
    (colMapStep m c).titel = if containsSub (str "titel") c then some c else m.titel := by
  simp only [colMapStep]
  split_ifs <;> rfl

theorem colMapStep_schrijver (m : ColMap) (c : Str) :
    (colMapStep m c).schrijver =
      if containsSub (str "schrijver") c || containsSub (str "auteur") c then some c
      else m.schrijver := by
  simp only [colMapStep]
  split_ifs <;> rfl

theorem colMapStep_categorie (m : ColMap) (c : Str) :
    (colMapStep m c).categorie =
      if containsSub (str "categorie") c then some c else m.categorie := by
  simp only [colMapStep]
  split_ifs <;> rfl

theorem getLast?_cons_or {α : Type} (a : α) (l : List α) :
    (a :: l).getLast? = l.getLast?.or (some a) := by
  cases l with
  | nil => rfl
  | cons b t =>
    rw [List.getLast?_cons_cons]
    obtain ⟨d, hd⟩ := Option.isSome_iff_exists.mp (by simp [List.getLast?_isSome] :
      ((b :: t).getLast?).isSome = true)
    rw [hd]
    rfl

/-- The `col_map` fold realizes "last matching column wins", for any role
accessor `f` whose single-step behaviour is overwrite-on-match. -/
theorem foldl_colMap_last (f : ColMap → Option Str) (p : Str → Bool)
    (hf : ∀ m c, f (colMapStep m c) = if p c then some c else f m) :
    ∀ (cols : List Str) (m : ColMap),
      f (cols.foldl colMapStep m) = ((cols.filter p).getLast?).or (f m) := by
  intro cols
  induction cols with
  | nil => intro m; simp
  | cons c cs ih =>
    intro m
    simp only [List.foldl_cons, List.filter_cons]
    rw [ih, hf]
    by_cases hp : p c = true
    · simp only [hp, if_pos rfl, reduceIte, getLast?_cons_or, Option.or_assoc]
      cases (List.filter p cs).getLast? <;> rfl
    · simp [hp]

-- Per-role characterization of the col_map loop: the role holds the LAST
-- matching column (Python dictionary assignment overwrites).

theorem colMap_taal (cols : List Str) :
    (colMap cols).taal = (cols.filter (fun c => containsSub (str "taal") c)).getLast? := by
  have h := foldl_colMap_last (fun m => m.taal) (fun c => containsSub (str "taal") c)
    (fun m c => colMapStep_taal m c) cols ColMap.empty
  simpa [colMap, ColMap.empty] using h

theorem colMap_locatie (cols : List Str) :
    (colMap cols).locatie = (cols.filter (fun c => containsSub (str "locatie") c)).getLast? := by
  have h := foldl_colMap_last (fun m => m.locatie) (fun c => containsSub (str "locatie") c)
    (fun m c => colMapStep_locatie m c) cols ColMap.empty
  simpa [colMap, ColMap.empty] using h

theorem colMap_titel (cols : List Str) :
    (colMap cols).titel = (cols.filter (fun c => containsSub (str "titel") c)).getLast? := by
  have h := foldl_colMap_last (fun m => m.titel) (fun c => containsSub (str "titel") c)
    (fun m c => colMapStep_titel m c) cols ColMap.empty
  simpa [colMap, ColMap.empty] using h

theorem colMap_schrijver (cols : List Str) :
    (colMap cols).schrijver =
      (cols.filter
        (fun c => containsSub (str "schrijver") c || containsSub (str "auteur") c)).getLast? := by
  have h := foldl_colMap_last (fun m => m.schrijver)
    (fun c => containsSub (str "schrijver") c || containsSub (str "auteur") c)
    (fun m c => colMapStep_schrijver m c) cols ColMap.empty
  simpa [colMap, ColMap.empty] using h

theorem colMap_categorie (cols : List Str) :
    (colMap cols).categorie =
      (cols.filter (fun c => containsSub (str "categorie") c)).getLast? := by
  have h := foldl_colMap_last (fun m => m.categorie) (fun c => containsSub (str "categorie") c)
    (fun m c => colMapStep_categorie m c) cols ColMap.empty
  simpa [colMap, ColMap.empty] using h

/-- Claim C1, counterexample: with two columns whose normalized names both
contain the marker `"taal"`, the `col_map` loop assigns the role to the
LATEST such column, not the earliest: Python dictionary assignment
overwrites the earlier match, so first-match-wins fails. -/
theorem C1_counterexample :
    containsSub (str "taal") (normName (str "Taal A")) = true ∧
    containsSub (str "taal") (normName (str "Taal B")) = true ∧
    (resolveRoles [str "Taal A", str "Taal B"]).taal ≠ some (normName (str "Taal A")) ∧
    (resolveRoles [str "Taal A", str "Taal B"]).taal = some (normName (str "Taal B")) := by
  decide

/-- Claim C1, amended: role resolution is LAST-match-wins.  For every
sequence of column names, iterating columns in their given order, a role
whose marker substring is contained in a column's normalized (trimmed,
lower-cased) name is assigned that column unconditionally, overwriting any
earlier assignment; so each role ends up mapped to the latest matching
column in table order (and is unassigned when no column matches). -/
theorem C1_theorem (cols : List Str) :
    (resolveRoles cols).taal
        = ((cols.map normName).filter (fun c => containsSub (str "taal") c)).getLast? ∧
    (resolveRoles cols).locatie
        = ((cols.map normName).filter (fun c => containsSub (str "locatie") c)).getLast? ∧
    (resolveRoles cols).titel
        = ((cols.map normName).filter (fun c => containsSub (str "titel") c)).getLast? ∧
    (resolveRoles cols).schrijver
        = ((cols.map normName).filter
            (fun c => containsSub (str "schrijver") c || containsSub (str "auteur") c)).getLast? ∧
    (resolveRoles cols).categorie
        = ((cols.map normName).filter (fun c => containsSub (str "categorie") c)).getLast? :=
  ⟨colMap_taal (cols.map normName), colMap_locatie (cols.map normName),
   colMap_titel (cols.map normName), colMap_schrijver (cols.map normName),
   colMap_categorie (cols.map normName)⟩

/-- Claim C4, counterexample: the markers `"taal"` and `"categorie"` are
disjoint (neither contains the other), yet a single column named
`"Categorie Taal"` is mapped by BOTH roles: the five independent `if`
statements of lines 92-102 each assign their own role. -/
theorem C4_counterexample :
    containsSub (str "taal") (str "categorie") = false ∧
    containsSub (str "categorie") (str "taal") = false ∧
    (resolveRoles [str "Categorie Taal"]).taal = some (str "categorie taal") ∧
    (resolveRoles [str "Categorie Taal"]).categorie = some (str "categorie taal") := by
  decide

/-- Claim C4, amended: role resolution assigns each role to at most one
column — each assigned column is an input column's normalized name
containing that role's marker — but a single column whose name contains the
markers of several roles is mapped by ALL of those roles at once. -/
theorem C4_theorem (cols : List Str) (c : Str) :
    ((resolveRoles cols).taal = some c →
        c ∈ cols.map normName ∧ containsSub (str "taal") c = true) ∧
    ((resolveRoles cols).locatie = some c →
        c ∈ cols.map normName ∧ containsSub (str "locatie") c = true) ∧
    ((resolveRoles cols).titel = some c →
        c ∈ cols.map normName ∧ containsSub (str "titel") c = true) ∧
    ((resolveRoles cols).schrijver = some c →
        c ∈ cols.map normName ∧
          (containsSub (str "schrijver") c || containsSub (str "auteur") c) = true) ∧
    ((resolveRoles cols).categorie = some c →
        c ∈ cols.map normName ∧ containsSub (str "categorie") c = true) := by
  refine ⟨fun h => ?_, fun h => ?_, fun h => ?_, fun h => ?_, fun h => ?_⟩
  · rw [(C1_theorem cols).1] at h
    exact List.mem_filter.mp (List.mem_of_mem_getLast? h)
  · rw [(C1_theorem cols).2.1] at h
    exact List.mem_filter.mp (List.mem_of_mem_getLast? h)
  · rw [(C1_theorem cols).2.2.1] at h
    exact List.mem_filter.mp (List.mem_of_mem_getLast? h)
  · rw [(C1_theorem cols).2.2.2.1] at h
    exact List.mem_filter.mp (List.mem_of_mem_getLast? h)
  · rw [(C1_theorem cols).2.2.2.2] at h
    exact List.mem_filter.mp (List.mem_of_mem_getLast? h)

/-- Claim C4, witness: the amended theorem applied at a concrete input. -/
theorem C4_witness :
    str "taal" ∈ [str "Taal"].map normName ∧ containsSub (str "taal") (str "taal") = true :=
  (C4_theorem [str "Taal"] (str "taal")).1 (by decide)

-- Facts about the ASCII case maps.

theorem upC_upC (c : Nat) : upC (upC c) = upC c := by
  simp only [upC]
  split_ifs <;> omega

theorem lowC_lowC (c : Nat) : lowC (lowC c) = lowC c := by
  simp only [lowC]
  split_ifs <;> omega

theorem isWS_lowC (c : Nat) : isWS (lowC c) = isWS c := by
  simp only [lowC]
  split_ifs with h
  · simp only [isWS, decide_eq_decide]
    omega
  · rfl

theorem isWS_upC (c : Nat) : isWS (upC c) = isWS c := by
  simp only [upC]
  split_ifs with h
  · simp only [isWS, decide_eq_decide]
    omega
  · rfl

theorem lowC_of_ws (c : Nat) (h : isWS c = true) : lowC c = c := by
  simp only [isWS, decide_eq_true_eq] at h
  simp only [lowC]
  split_ifs <;> omega

theorem upC_of_ws (c : Nat) (h : isWS c = true) : upC c = c := by
  simp only [isWS, decide_eq_true_eq] at h
  simp only [upC]
  split_ifs <;> omega

-- The normal form reached by strip-and-collapse: no whitespace at either
-- end, every whitespace code point is a plain space, and no two adjacent
-- whitespace code points.

/-- Normal form of a value under the save-time whitespace cleaning. -/
structure NF (s : Str) : Prop where
  hd : ∀ c ∈ s.head?, isWS c = false
  lt : ∀ c ∈ s.getLast?, isWS c = false
  ws : ∀ c ∈ s, isWS c = true → c = 32
  adj : List.Chain' (fun a b => isWS a = false ∨ isWS b = false) s

theorem head?_of_pre {α : Type} {l1 l2 : List α} (h : l2 <+: l1) (hne : l2 ≠ []) :
    l2.head? = l1.head? := by
  obtain ⟨t, rfl⟩ := h
  rw [List.head?_append]
  obtain ⟨d, hd⟩ := Option.isSome_iff_exists.mp (by simpa [List.head?_isSome] using hne :
    l2.head?.isSome = true)
  rw [hd]
  rfl

theorem getLast?_of_suf {α : Type} {l1 l2 : List α} (h : l2 <:+ l1) (hne : l2 ≠ []) :
    l2.getLast? = l1.getLast? := by
  obtain ⟨t, rfl⟩ := h
  rw [List.getLast?_append]
  obtain ⟨d, hd⟩ := Option.isSome_iff_exists.mp (by simpa [List.getLast?_isSome] using hne :
    l2.getLast?.isSome = true)
  rw [hd]
  rfl

theorem collapseR_nil : collapseR [] = [] := by rw [collapseR]

theorem head_dropWhile_ws (l : Str) : ∀ c ∈ (l.dropWhile isWS).head?, isWS c = false := by
  have h := List.head?_dropWhile_not isWS l
  intro c hc
  cases hdrop : (l.dropWhile isWS).head? with
  | none => simp [hdrop] at hc
  | some d =>
    rw [hdrop] at h hc
    simp only [Option.mem_def, Option.some.injEq] at hc
    subst hc
    simpa using h

theorem collapseR_ne_nil (l : Str) (h : l ≠ []) : collapseR l ≠ [] := by
  cases l with
  | nil => exact absurd rfl h
  | cons c cs =>
    rw [collapseR]
    split_ifs <;> simp

theorem head?_collapseR_not_ws (l : Str) (h : ∀ c ∈ l.head?, isWS c = false) :
    (collapseR l).head? = l.head? := by
  cases l with
  | nil => rw [collapseR_nil]
  | cons c cs =>
    have hc : isWS c = false := h c rfl
    rw [collapseR, if_neg (by simp [hc])]
    rfl

theorem collapseR_ws_only (l : Str) : ∀ c ∈ collapseR l, isWS c = true → c = 32 := by
  induction l using collapseR.induct with
  | case1 => simp [collapseR]
  | case2 c cs h ih =>
    rw [collapseR, if_pos h]
    intro d hd hws
    rcases List.mem_cons.mp hd with h32 | hmem
    · exact h32
    · exact ih d hmem hws
  | case3 c cs h ih =>
    rw [collapseR, if_neg h]
    intro d hd hws
    rcases List.mem_cons.mp hd with rfl | hmem
    · exact absurd hws h
    · exact ih d hmem hws

theorem collapseR_adj (l : Str) :
    List.Chain' (fun a b => isWS a = false ∨ isWS b = false) (collapseR l) := by
  induction l using collapseR.induct with
  | case1 => simp [collapseR]
  | case2 c cs h ih =>
    rw [collapseR, if_pos h]
    refine List.chain'_cons'.mpr ⟨?_, ih⟩
    intro y hy
    right
    rw [head?_collapseR_not_ws (cs.dropWhile isWS) (head_dropWhile_ws cs)] at hy
    exact head_dropWhile_ws cs y hy
  | case3 c cs h ih =>
    rw [collapseR, if_neg h]
    refine List.chain'_cons'.mpr ⟨?_, ih⟩
    intro y _
    left
    exact eq_false_of_ne_true h

theorem getLast?_collapseR (l : Str) (h : ∀ c ∈ l.getLast?, isWS c = false) :
    (collapseR l).getLast? = l.getLast? := by
  induction l using collapseR.induct with
  | case1 => rw [collapseR_nil]
  | case2 c cs hws ih =>
    rw [collapseR, if_pos hws]
    have hcs : cs ≠ [] := by
      intro hnil
      subst hnil
      have := h c (by simp)
      rw [this] at hws
      exact Bool.false_ne_true hws
    have hlast : (c :: cs).getLast? = cs.getLast? := by
      cases cs with
      | nil => exact absurd rfl hcs
      | cons d ds => exact List.getLast?_cons_cons
    have hdws : cs.dropWhile isWS ≠ [] := by
      intro hnil
      obtain ⟨e, he⟩ := Option.isSome_iff_exists.mp
        (by simpa [List.getLast?_isSome] using hcs : cs.getLast?.isSome = true)
      have hemem : e ∈ cs := List.mem_of_mem_getLast? he
      have : isWS e = true := List.dropWhile_eq_nil_iff.mp hnil e hemem
      have hef : isWS e = false := by
        rw [hlast] at h
        exact h e he
      rw [hef] at this
      exact Bool.false_ne_true this
    have hsuf : (cs.dropWhile isWS).getLast? = cs.getLast? :=
      getLast?_of_suf (List.dropWhile_suffix isWS) hdws
    have hih : (collapseR (cs.dropWhile isWS)).getLast? = (cs.dropWhile isWS).getLast? := by
      refine ih ?_
      intro d hd
      rw [hsuf] at hd
      rw [hlast] at h
      exact h d hd
    rw [getLast?_cons_or, hih, hsuf]
    obtain ⟨e, he⟩ := Option.isSome_iff_exists.mp
      (by simpa [List.getLast?_isSome] using hcs : cs.getLast?.isSome = true)
    rw [he, hlast, he]
    rfl
  | case3 c cs hws ih =>
    rw [collapseR, if_neg hws]
    cases hcs : cs with
    | nil =>
      subst hcs
      rw [collapseR_nil]
    | cons d ds =>
      subst hcs
      have hlast : (c :: d :: ds).getLast? = (d :: ds).getLast? := List.getLast?_cons_cons
      have hih : (collapseR (d :: ds)).getLast? = (d :: ds).getLast? := by
        refine ih ?_
        intro e he
        rw [hlast] at h
        exact h e he
      rw [getLast?_cons_or, hih, hlast]
      obtain ⟨e, he⟩ := Option.isSome_iff_exists.mp
        (by simp [List.getLast?_isSome] : ((d :: ds).getLast?).isSome = true)
      rw [he]
      rfl

theorem collapseR_eq_self (l : Str) (hws : ∀ c ∈ l, isWS c = true → c = 32)
    (hadj : List.Chain' (fun a b => isWS a = false ∨ isWS b = false) l) :
    collapseR l = l := by
  induction l using collapseR.induct with
  | case1 => rw [collapseR_nil]
  | case2 c cs h ih =>
    rw [collapseR, if_pos h]
    have hc32 : c = 32 := hws c (by simp) h
    have hdrop : cs.dropWhile isWS = cs := by
      cases cs with
      | nil => rfl
      | cons d ds =>
        have hpair := (List.chain'_cons'.mp hadj).1 d rfl
        have hd : isWS d = false := by
          rcases hpair with hcf | hdf
          · rw [h] at hcf
            exact absurd hcf (by decide)
          · exact hdf
        simp [List.dropWhile, hd]
    have hcs : collapseR cs = cs := by
      have h1 : ∀ d ∈ cs.dropWhile isWS, isWS d = true → d = 32 := by
        intro d hd hwsd
        exact hws d (List.mem_cons_of_mem c (by rwa [hdrop] at hd)) hwsd
      have h2 : List.Chain' (fun a b => isWS a = false ∨ isWS b = false)
          (cs.dropWhile isWS) := by
        rw [hdrop]
        exact (List.chain'_cons'.mp hadj).2
      have := ih h1 h2
      rwa [hdrop] at this
    rw [hdrop, hcs, hc32]
  | case3 c cs h ih =>
    rw [collapseR, if_neg h]
    rw [ih]
    · intro d hd hwsd
      exact hws d (List.mem_cons_of_mem c hd) hwsd
    · exact (List.chain'_cons'.mp hadj).2

-- The structural scanner computes the run-collapsing form.

theorem collapseAux_true_eq (cs : Str) :
    collapseAux true cs = collapseAux false (cs.dropWhile isWS) := by
  induction cs with
  | nil => rfl
  | cons c cs ih =>
    by_cases h : isWS c = true
    · simp only [collapseAux, h, if_pos rfl, List.dropWhile_cons_of_pos h]
      exact ih
    · simp only [collapseAux, h, List.dropWhile_cons_of_neg h]
      simp [h]

theorem collapseWS_eq_collapseR (s : Str) : collapseWS s = collapseR s := by
  induction s using collapseR.induct with
  | case1 => rw [collapseR_nil]; rfl
  | case2 c cs h ih =>
    rw [collapseR, if_pos h]
    show collapseAux false (c :: cs) = _
    simp only [collapseAux, h, if_pos rfl]
    rw [collapseAux_true_eq]
    exact congrArg (32 :: ·) ih
  | case3 c cs h ih =>
    rw [collapseR, if_neg h]
    show collapseAux false (c :: cs) = _
    have h2 : isWS c = false := eq_false_of_ne_true h
    simp only [collapseAux, h2]
    simp only [Bool.false_eq_true, if_false]
    exact congrArg (c :: ·) ih

-- The collapseR facts transferred to the executable collapseWS.

theorem collapseWS_ws_only (l : Str) : ∀ c ∈ collapseWS l, isWS c = true → c = 32 := by
  rw [collapseWS_eq_collapseR]
  exact collapseR_ws_only l

theorem collapseWS_adj (l : Str) :
    List.Chain' (fun a b => isWS a = false ∨ isWS b = false) (collapseWS l) := by
  rw [collapseWS_eq_collapseR]
  exact collapseR_adj l

theorem head?_collapseWS_not_ws (l : Str) (h : ∀ c ∈ l.head?, isWS c = false) :
    (collapseWS l).head? = l.head? := by
  rw [collapseWS_eq_collapseR]
  exact head?_collapseR_not_ws l h

theorem getLast?_collapseWS (l : Str) (h : ∀ c ∈ l.getLast?, isWS c = false) :
    (collapseWS l).getLast? = l.getLast? := by
  rw [collapseWS_eq_collapseR]
  exact getLast?_collapseR l h

theorem collapseWS_eq_self (l : Str) (hws : ∀ c ∈ l, isWS c = true → c = 32)
    (hadj : List.Chain' (fun a b => isWS a = false ∨ isWS b = false) l) :
    collapseWS l = l := by
  rw [collapseWS_eq_collapseR]
  exact collapseR_eq_self l hws hadj

-- Facts about pyStrip.

theorem pyStrip_head (s : Str) : ∀ c ∈ (pyStrip s).head?, isWS c = false := by
  intro c hc
  by_cases hne : pyStrip s = []
  · rw [hne] at hc
    simp at hc
  · have hpre : pyStrip s <+: s.dropWhile isWS := List.rdropWhile_prefix isWS (s.dropWhile isWS)
    rw [head?_of_pre hpre hne] at hc
    exact head_dropWhile_ws s c hc

theorem pyStrip_last (s : Str) : ∀ c ∈ (pyStrip s).getLast?, isWS c = false := by
  intro c hc
  by_cases hne : pyStrip s = []
  · rw [hne] at hc
    simp at hc
  · have hlast := List.rdropWhile_last_not isWS (s.dropWhile isWS) hne
    rw [List.getLast?_eq_getLast _ hne] at hc
    simp only [Option.mem_def, Option.some.injEq] at hc
    subst hc
    simpa using hlast

theorem pyStrip_eq_self (s : Str) (h1 : ∀ c ∈ s.head?, isWS c = false)
    (h2 : ∀ c ∈ s.getLast?, isWS c = false) : pyStrip s = s := by
  have hd : s.dropWhile isWS = s := by
    cases s with
    | nil => rfl
    | cons c cs =>
      have hc := h1 c rfl
      simp [List.dropWhile, hc]
  rw [pyStrip, hd]
  rw [List.rdropWhile_eq_self_iff]
  intro hl
  have := h2 (s.getLast hl) (List.getLast?_eq_getLast s hl)
  simp [this]

-- The strip-and-collapse pass produces normal forms and fixes them.

theorem NF_normWS (s : Str) : NF (normWS s) := by
  constructor
  · intro c hc
    rw [normWS, head?_collapseWS_not_ws (pyStrip s) (pyStrip_head s)] at hc
    exact pyStrip_head s c hc
  · intro c hc
    rw [normWS, getLast?_collapseWS (pyStrip s) (pyStrip_last s)] at hc
    exact pyStrip_last s c hc
  · exact collapseWS_ws_only (pyStrip s)
  · exact collapseWS_adj (pyStrip s)

theorem normWS_of_NF (s : Str) (h : NF s) : normWS s = s := by
  rw [normWS, pyStrip_eq_self s h.hd h.lt]
  exact collapseWS_eq_self s h.ws h.adj

theorem normWS_idem (s : Str) : normWS (normWS s) = normWS s :=
  normWS_of_NF (normWS s) (NF_normWS s)

-- Facts about capitalize.

theorem capitalize_capitalize (s : Str) : capitalize (capitalize s) = capitalize s := by
  cases s with
  | nil => rfl
  | cons c cs =>
    simp only [capitalize, upC_upC, List.map_map]
    refine congrArg (upC c :: ·) ?_
    refine List.map_congr_left ?_
    intro a _
    exact lowC_lowC a

theorem NF_capitalize (s : Str) (h : NF s) : NF (capitalize s) := by
  cases s with
  | nil => exact h
  | cons c cs =>
    have hc : isWS c = false := h.hd c rfl
    constructor
    · intro d hd
      simp only [capitalize, List.head?_cons, Option.mem_def, Option.some.injEq] at hd
      subst hd
      rw [isWS_upC]
      exact hc
    · intro d hd
      cases hcs : cs with
      | nil =>
        subst hcs
        simp only [capitalize, List.map_nil, List.getLast?_singleton, Option.mem_def,
          Option.some.injEq] at hd
        subst hd
        rw [isWS_upC]
        exact hc
      | cons e es =>
        subst hcs
        have hstep : (capitalize (c :: e :: es)).getLast? = ((e :: es).getLast?).map lowC := by
          simp only [capitalize, List.map_cons]
          rw [List.getLast?_cons_cons, ← List.map_cons lowC e es, List.getLast?_map]
        rw [hstep] at hd
        obtain ⟨g, hg⟩ := Option.isSome_iff_exists.mp
          (by simp [List.getLast?_isSome] : ((e :: es).getLast?).isSome = true)
        rw [hg] at hd
        simp only [Option.map_some', Option.mem_def, Option.some.injEq] at hd
        subst hd
        rw [isWS_lowC]
        have : (c :: e :: es).getLast? = some g := by
          rw [List.getLast?_cons_cons]
          exact hg
        exact h.lt g this
    · intro d hd hws
      rcases List.mem_cons.mp hd with rfl | hmem
      · have : isWS c = true := by rwa [isWS_upC] at hws
        rw [this] at hc
        exact absurd hc (by decide)
      · obtain ⟨e, hemem, rfl⟩ := List.mem_map.mp hmem
        have hwe : isWS e = true := by rwa [isWS_lowC] at hws
        have he32 : e = 32 := h.ws e (List.mem_cons_of_mem c hemem) hwe
        subst he32
        exact lowC_of_ws 32 rfl
    · refine List.chain'_cons'.mpr ⟨?_, ?_⟩
      · intro y hy
        rw [List.head?_map] at hy
        cases hhd : cs.head? with
        | none => rw [hhd] at hy; simp at hy
        | some z =>
          rw [hhd] at hy
          simp only [Option.map_some', Option.mem_def, Option.some.injEq] at hy
          subst hy
          have hpair := (List.chain'_cons'.mp h.adj).1 z hhd
          rcases hpair with hcf | hzf
          · left
            rw [isWS_upC]
            exact hcf
          · right
            rw [isWS_lowC]
            exact hzf
      · rw [List.chain'_map]
        refine List.Chain'.imp ?_ (List.chain'_cons'.mp h.adj).2
        intro a b hab
        rcases hab with ha | hb
        · left
          rw [isWS_lowC]
          exact ha
        · right
          rw [isWS_lowC]
          exact hb

theorem normWS_cap_normWS (s : Str) :
    normWS (capitalize (normWS s)) = capitalize (normWS s) :=
  normWS_of_NF (capitalize (normWS s)) (NF_capitalize (normWS s) (NF_normWS s))

/-- One cell of one column through the text-cleaning of `save_excel`
(lines 48-57 of `main.py`): strip-and-collapse for every column, then
`str.capitalize` for columns whose name contains `"locatie"`, `"taal"` or
`"categorie"`, then a second strip-and-collapse for columns whose name
contains `"titel"`, `"schrijver"` or `"auteur"`. -/
def cleanCell (col : Str) (v : Str) : Str :=
  let v1 := normWS v
  let v2 := if containsSub (str "locatie") col then capitalize v1 else v1
  let v3 := if containsSub (str "taal") col then capitalize v2 else v2
  let v4 := if containsSub (str "categorie") col then capitalize v3 else v3
  if containsSub (str "titel") col || containsSub (str "schrijver") col ||
      containsSub (str "auteur") col then normWS v4
  else v4

/-- A table in column form: a list of (column name, cell values). -/
abbrev Table := List (Str × List Str)

/-- Lines 45-57 of `main.py`: the normalize-on-write pass of `save_excel`,
applied to every cell of every column. -/
def cleanTable (t : Table) : Table :=
  t.map (fun nc => (nc.1, nc.2.map (cleanCell nc.1)))

/-- Does the column play the location, language or category role
(capitalized on save)? -/
def capMarkerCol (col : Str) : Bool :=
  containsSub (str "locatie") col || containsSub (str "taal") col ||
    containsSub (str "categorie") col

/-- Does the column play the title or author role (whitespace-only
cleaning)? -/
def titleMarkerCol (col : Str) : Bool :=
  containsSub (str "titel") col || containsSub (str "schrijver") col ||
    containsSub (str "auteur") col

theorem cleanCell_idem (col v : Str) : cleanCell col (cleanCell col v) = cleanCell col v := by
  simp only [cleanCell]
  by_cases h1 : containsSub (str "locatie") col = true <;>
    by_cases h2 : containsSub (str "taal") col = true <;>
      by_cases h3 : containsSub (str "categorie") col = true <;>
        by_cases h4 : (containsSub (str "titel") col || containsSub (str "schrijver") col ||
            containsSub (str "auteur") col) = true <;>
          simp [h1, h2, h3, h4, normWS_idem, normWS_cap_normWS, capitalize_capitalize]

theorem cleanCell_eq (col v : Str) :
    cleanCell col v =
      (if titleMarkerCol col then
        normWS (if capMarkerCol col then capitalize (normWS v) else normWS v)
      else if capMarkerCol col then capitalize (normWS v) else normWS v) := by
  simp only [cleanCell, capMarkerCol, titleMarkerCol]
  by_cases h1 : containsSub (str "locatie") col = true <;>
    by_cases h2 : containsSub (str "taal") col = true <;>
      by_cases h3 : containsSub (str "categorie") col = true <;>
        simp [h1, h2, h3, capitalize_capitalize]

/-- Modelled from the spec: the capitalization the specification describes
— first letter upper-cased, the REST OF THE STRING LEFT UNCHANGED — for
comparison against the code's `str.capitalize`. -/
def specCapitalize : Str → Str
  | [] => []
  | c :: cs => upC c :: cs

/-- Claim C2, counterexample: on the category-role column, the code applies
Python `str.capitalize`, which lower-cases everything after the first
letter; the value `"SF"` becomes `"Sf"`, while the claim ("rest of the
string left unchanged") predicts `"SF"`. -/
theorem C2_counterexample :
    cleanCell (str "categorie") (str "SF") = str "Sf" ∧
    specCapitalize (normWS (str "SF")) = str "SF" ∧
    cleanCell (str "categorie") (str "SF") ≠ specCapitalize (normWS (str "SF")) := by
  decide

/-- Claim C2, amended: normalize-on-write strips leading/trailing
whitespace and collapses internal whitespace runs to one space on every
field; fields of location-, language- or category-role columns are
additionally passed through Python `str.capitalize`, which upper-cases the
first letter and LOWER-CASES the rest; fields of title/author-role columns
(not also carrying a capitalization marker) get whitespace normalization
only and no case change. -/
theorem C2_theorem (col v : Str) :
    (capMarkerCol col = false → titleMarkerCol col = false →
        cleanCell col v = normWS v) ∧
    (capMarkerCol col = true → titleMarkerCol col = false →
        cleanCell col v = capitalize (normWS v)) ∧
    (capMarkerCol col = false → titleMarkerCol col = true →
        cleanCell col v = normWS v) := by
  refine ⟨fun hc ht => ?_, fun hc ht => ?_, fun hc ht => ?_⟩
  · rw [cleanCell_eq, hc, ht]
    simp
  · rw [cleanCell_eq, hc, ht]
    simp
  · rw [cleanCell_eq, hc, ht]
    simp [normWS_idem]

/-- Claim C2, witness: the amended theorem applied at concrete columns and
a concrete value. -/
theorem C2_witness :
    cleanCell (str "categorie") (str " zz  Y") = capitalize (normWS (str " zz  Y")) ∧
    cleanCell (str "titel") (str " zz  Y") = normWS (str " zz  Y") :=
  ⟨(C2_theorem (str "categorie") (str " zz  Y")).2.1 (by decide) (by decide),
   (C2_theorem (str "titel") (str " zz  Y")).2.2 (by decide) (by decide)⟩

/-- Claim C9, confirmed: normalize-on-write is idempotent — applying the
save-time normalization (whitespace strip, whitespace-run collapse and
role-based capitalization) twice yields the same table as applying it
once. -/
theorem C9_theorem (t : Table) : cleanTable (cleanTable t) = cleanTable t := by
  simp only [cleanTable, List.map_map]
  refine List.map_congr_left ?_
  intro nc _
  simp only [Function.comp_apply, List.map_map]
  refine congrArg (Prod.mk nc.1) ?_
  refine List.map_congr_left ?_
  intro v _
  exact cleanCell_idem nc.1 v

-- Persistence model: settings, workbooks and the storage state touched by
-- load_excel (lines 31-43) and save_excel (lines 45-72).

/-- The settings document of `settings.json` (lines 16-28). -/
structure Settings where
  data_source : Str
  data_path : Str
  remote_url : Str
deriving DecidableEq

/-- A workbook: ordered sheets, each holding a table (Python dict order as
read by `pd.read_excel(..., sheet_name=None)`). -/
abbrev Workbook := List (Str × Table)

/-- The persisted world: local files by path, plus the table behind the
remote URL (`none` when the remote read would fail). -/
structure Store where
  files : List (Str × Workbook)
  remote : Option Table
deriving DecidableEq

/-- Association-list lookup (first hit), the model of Python dict /
path-indexed access. -/
def lookupA {α : Type} (k : Str) : List (Str × α) → Option α
  | [] => none
  | kv :: t => if kv.1 = k then some kv.2 else lookupA k t

/-- Python dict assignment `m[k] = v`: replace in place when the key
exists, else append at the end (insertion order preserved). -/
def setA {α : Type} (k : Str) (v : α) (m : List (Str × α)) : List (Str × α) :=
  if (lookupA k m).isSome then m.map (fun p => if p.1 = k then (k, v) else p)
  else m ++ [(k, v)]

/-- The constant `FILE_DEFAULT = Path("Boeken_Map.xlsx")` (line 12). -/
def fileDefault : Str := str "Boeken_Map.xlsx"

/-- The sheet written by `save_excel` (line 66). -/
def sheetBoeken : Str := str "Boeken lijst"

/-- Lines 31-43 of `main.py`: `load_excel` reads the remote URL when
`data_source` is `"remote"` and the URL is non-empty, else reads the FIRST
sheet of the workbook at `data_path`; `none` models the caught exception
(`st.stop`). -/
def load_excel (st : Settings) (sto : Store) : Option Table :=
  if st.data_source = str "remote" ∧ st.remote_url ≠ [] then sto.remote
  else (lookupA st.data_path sto.files).bind (fun wb => wb.head?.map (fun nc => nc.2))

/-- Lines 45-72 of `main.py`: `save_excel` cleans the table, refuses to
write when `data_source` is `"remote"` (store unchanged), else re-reads
every sheet of `FILE_DEFAULT`, replaces the sheet `"Boeken lijst"`, and
rewrites the whole workbook at `FILE_DEFAULT` — never at `data_path`.
`none` models the uncaught read failure when `FILE_DEFAULT` is missing. -/
def save_excel (st : Settings) (sto : Store) (df : Table) : Option Store :=
  let d := cleanTable df
  if st.data_source = str "remote" then some sto
  else
    match lookupA fileDefault sto.files with
    | none => none
    | some wb =>
      some { sto with files := setA fileDefault (setA sheetBoeken d wb) sto.files }

-- Association-list lemmas.

theorem lookupA_map_set {α : Type} (k : Str) (v : α) (m : List (Str × α))
    (h : (lookupA k m).isSome = true) :
    lookupA k (m.map (fun p => if p.1 = k then (k, v) else p)) = some v := by
  induction m with
  | nil => simp [lookupA] at h
  | cons kv t ih =>
    by_cases hk : kv.1 = k
    · simp [lookupA, hk]
    · simp only [lookupA, hk, if_neg hk, if_false] at h
      simp only [List.map_cons, if_neg hk]
      rw [lookupA, if_neg hk]
      exact ih h

theorem lookupA_append_single {α : Type} (k : Str) (v : α) (m : List (Str × α))
    (h : lookupA k m = none) :
    lookupA k (m ++ [(k, v)]) = some v := by
  induction m with
  | nil => simp [lookupA]
  | cons kv t ih =>
    by_cases hk : kv.1 = k
    · rw [lookupA, if_pos hk] at h
      exact absurd h (by simp)
    · rw [lookupA, if_neg hk] at h
      rw [List.cons_append, lookupA, if_neg hk]
      exact ih h

theorem lookupA_setA_self {α : Type} (k : Str) (v : α) (m : List (Str × α)) :
    lookupA k (setA k v m) = some v := by
  rw [setA]
  by_cases h : (lookupA k m).isSome = true
  · rw [if_pos h]
    exact lookupA_map_set k v m h
  · rw [if_neg h]
    refine lookupA_append_single k v m ?_
    rwa [Option.not_isSome_iff_eq_none] at h

theorem lookupA_map_upd_other {α : Type} (k k2 : Str) (v : α) (m : List (Str × α))
    (hne : k2 ≠ k) :
    lookupA k2 (m.map (fun p => if p.1 = k then (k, v) else p)) = lookupA k2 m := by
  induction m with
  | nil => rfl
  | cons kv t ih =>
    simp only [List.map_cons]
    by_cases hk : kv.1 = k
    · rw [if_pos hk, lookupA, lookupA,
        if_neg (fun hx : k = k2 => hne hx.symm), if_neg (fun hx : kv.1 = k2 => hne (hk ▸ hx).symm)]
      exact ih
    · rw [if_neg hk, lookupA, lookupA]
      by_cases hk4 : kv.1 = k2
      · rw [if_pos hk4, if_pos hk4]
      · rw [if_neg hk4, if_neg hk4]
        exact ih

theorem lookupA_append_other {α : Type} (k k2 : Str) (v : α) (m : List (Str × α))
    (hne : k2 ≠ k) :
    lookupA k2 (m ++ [(k, v)]) = lookupA k2 m := by
  induction m with
  | nil =>
    have h2 : ¬(k = k2) := fun hx => hne hx.symm
    simp [lookupA, h2]
  | cons kv t ih =>
    rw [List.cons_append, lookupA, lookupA]
    by_cases hk4 : kv.1 = k2
    · rw [if_pos hk4, if_pos hk4]
    · rw [if_neg hk4, if_neg hk4]
      exact ih

theorem lookupA_setA_other {α : Type} (k k2 : Str) (v : α) (m : List (Str × α))
    (hne : k2 ≠ k) : lookupA k2 (setA k v m) = lookupA k2 m := by
  rw [setA]
  by_cases h : (lookupA k m).isSome = true
  · rw [if_pos h]
    exact lookupA_map_upd_other k k2 v m hne
  · rw [if_neg h]
    exact lookupA_append_other k k2 v m hne

/-- Claim C3, counterexample: with a remote data source, `save_excel`
performs no write at all (the store is unchanged), so `load()` after
`Persist(T)` returns the old remote table, not `Normalize-on-write(T)`:
the round trip fails under the remote storage configuration. -/
theorem C3_counterexample :
    save_excel ⟨str "remote", str "Boeken_Map.xlsx", str "http"⟩ ⟨[], some []⟩
        [(str "titel", [str "A"])] = some ⟨[], some []⟩ ∧
    load_excel ⟨str "remote", str "Boeken_Map.xlsx", str "http"⟩ ⟨[], some []⟩ = some [] ∧
    some ([] : Table) ≠ some (cleanTable [(str "titel", [str "A"])]) := by
  decide

/-- Claim C3, amended: the round trip `Persist(T)` then `load()` yields
`Normalize-on-write(T)` only under the local configuration whose
`data_path` is the fixed default workbook `"Boeken_Map.xlsx"`, provided
that workbook exists and `"Boeken lijst"` is its first sheet (or it is
empty): `save_excel` always writes to `FILE_DEFAULT` and `load_excel`
reads the FIRST sheet of `data_path`. -/
theorem C3_theorem (st : Settings) (sto : Store) (T : Table) (wb : Workbook)
    (h1 : st.data_source ≠ str "remote")
    (h2 : st.data_path = fileDefault)
    (h3 : lookupA fileDefault sto.files = some wb)
    (h4 : wb = [] ∨ ∃ t0, wb.head? = some (sheetBoeken, t0)) :
    ∃ sto2, save_excel st sto T = some sto2 ∧
      load_excel st sto2 = some (cleanTable T) := by
  refine ⟨{ sto with
    files := setA fileDefault (setA sheetBoeken (cleanTable T) wb) sto.files }, ?_, ?_⟩
  · simp only [save_excel]
    rw [if_neg h1, h3]
  · simp only [load_excel]
    have hcond : ¬(st.data_source = str "remote" ∧ st.remote_url ≠ []) := fun hx => h1 hx.1
    rw [if_neg hcond, h2]
    rw [lookupA_setA_self]
    rcases h4 with rfl | ⟨t0, ht0⟩
    · simp [setA, lookupA]
    · cases wb with
      | nil => simp at ht0
      | cons nc rest =>
        simp only [List.head?_cons, Option.some.injEq] at ht0
        subst ht0
        simp [setA, lookupA]

/-- Claim C3, witness: the amended theorem applied at a concrete local
configuration and store. -/
theorem C3_witness :
    ∃ sto2,
      save_excel ⟨str "local", str "Boeken_Map.xlsx", str ""⟩
          ⟨[(fileDefault, [(sheetBoeken, [])])], none⟩ [(str "titel", [str " a "])]
        = some sto2 ∧
      load_excel ⟨str "local", str "Boeken_Map.xlsx", str ""⟩ sto2
        = some (cleanTable [(str "titel", [str " a "])]) :=
  C3_theorem ⟨str "local", str "Boeken_Map.xlsx", str ""⟩
    ⟨[(fileDefault, [(sheetBoeken, [])])], none⟩ [(str "titel", [str " a "])]
    [(sheetBoeken, [])] (by decide) (by decide) (by decide) (Or.inr ⟨[], rfl⟩)

/-- Claim C10, confirmed: a successful `save_excel` with a non-remote data
source rewrites only the workbook at the fixed default path
`"Boeken_Map.xlsx"` (regardless of `data_path`), leaves every other file
and the remote table untouched, replaces only the sheet `"Boeken lijst"`
with the normalized table, and rewrites every other sheet with its
previously loaded contents; with a remote data source it writes nothing. -/
theorem C10_theorem (st : Settings) (sto : Store) (T : Table) (sto2 : Store)
    (h : save_excel st sto T = some sto2) :
    (st.data_source = str "remote" → sto2 = sto) ∧
    (st.data_source ≠ str "remote" →
      sto2.remote = sto.remote ∧
      (∀ p, p ≠ fileDefault → lookupA p sto2.files = lookupA p sto.files) ∧
      ∃ wb, lookupA fileDefault sto.files = some wb ∧
        lookupA fileDefault sto2.files = some (setA sheetBoeken (cleanTable T) wb) ∧
        (∀ s2, s2 ≠ sheetBoeken →
          lookupA s2 (setA sheetBoeken (cleanTable T) wb) = lookupA s2 wb) ∧
        lookupA sheetBoeken (setA sheetBoeken (cleanTable T) wb)
          = some (cleanTable T)) ∧
    (∀ dp, save_excel ⟨st.data_source, dp, st.remote_url⟩ sto T = save_excel st sto T) := by
  refine ⟨?_, ?_, ?_⟩
  · intro hrem
    simp only [save_excel, if_pos hrem, Option.some.injEq] at h
    exact h.symm
  · intro hloc
    simp only [save_excel] at h
    rw [if_neg hloc] at h
    cases hlk : lookupA fileDefault sto.files with
    | none =>
      rw [hlk] at h
      exact Option.noConfusion h
    | some wb =>
      rw [hlk] at h
      simp only [Option.some.injEq] at h
      subst h
      refine ⟨rfl, ?_, wb, rfl, ?_, ?_, ?_⟩
      · intro p hp
        exact lookupA_setA_other fileDefault p _ sto.files hp
      · exact lookupA_setA_self fileDefault _ sto.files
      · intro s2 hs2
        exact lookupA_setA_other sheetBoeken s2 _ wb hs2
      · exact lookupA_setA_self sheetBoeken _ wb
  · intro dp
    rfl

/-- Claim C10, witness: the theorem applied at a concrete save. -/
theorem C10_witness :
    (⟨[(fileDefault, [(sheetBoeken, ([] : Table))])], none⟩ : Store).remote
      = (⟨[(fileDefault, [])], none⟩ : Store).remote :=
  ((C10_theorem ⟨str "local", str "p", str ""⟩ ⟨[(fileDefault, [])], none⟩ []
      ⟨[(fileDefault, [(sheetBoeken, [])])], none⟩ (by decide)).2.1 (by decide)).1

-- Row-level model: the DataFrame as rows of (column, cell) pairs, a cell
-- being `none` for pandas NaN.

/-- One record: the row's cells keyed by column name; `none` models NaN. -/
abbrev Rec := List (Str × Option Str)

/-- The in-memory DataFrame in row form. -/
structure RTable where
  cols : List Str
  rows : List Rec
deriving DecidableEq

/-- Cell of a record in a given column (`none` for a missing column or a
NaN cell). -/
def cellR (r : Rec) (c : Str) : Option Str := (lookupA c r).join

/-- The lookup `col_map.get("titel", "titel")` (lines 181 and 260 of `main.py`). -/
def titelColOf (cm : ColMap) : Str := cm.titel.getD (str "titel")

/-- One row passes the duplicate test of lines 262/269:
`df[titel_col].str.lower() == value.lower()` (a NaN cell never matches). -/
def rowTitleLowEq (tc v : Str) (r : Rec) : Bool :=
  match cellR r tc with
  | some w => lower w == lower v
  | none => false

/-- Lines 262/269: the row positions of `title_matches` — all rows whose
title equals the candidate case-insensitively. -/
def dupPositions (t : RTable) (tc v : Str) : List Nat :=
  (List.range t.rows.length).filter (fun i =>
    match t.rows[i]? with
    | some r => rowTitleLowEq tc v r
    | none => false)

/-- Emptiness test on `title_matches` (lines 263 and 270). -/
def hasDupTitle (t : RTable) (tc v : Str) : Bool :=
  t.rows.any (rowTitleLowEq tc v)

/-- Line 182: `df[df[titel_col] == value].index` — the positions with
EXACT (case-sensitive) title equality. -/
def matchPositions (t : RTable) (tc v : Str) : List Nat :=
  (List.range t.rows.length).filter (fun i =>
    match t.rows[i]? with
    | some r => cellR r tc == some v
    | none => false)

/-- Lines 182-185: `match_idx[0]` — the first exactly-matching position,
`none` when `match_idx` is empty. -/
def findByTitle (t : RTable) (tc v : Str) : Option Nat :=
  t.rows.findIdx? (fun r => cellR r tc == some v)

/-- Line 274: `pd.concat([df, pd.DataFrame([new_entry])],
ignore_index=True)` — the new row takes the entry's value per column
(`none`, i.e. NaN, where the entry lacks the column); entry-only columns
are appended after the existing ones and old rows get NaN there. -/
def concatRow (t : RTable) (entry : List (Str × Str)) : RTable :=
  let extra := (entry.map Prod.fst).filter (fun k => decide (k ∉ t.cols))
  { cols := t.cols ++ extra,
    rows := t.rows.map (fun r => r ++ extra.map (fun k => (k, (none : Option Str)))) ++
      [(t.cols ++ extra).map (fun c => (c, lookupA c entry))] }

/-- Lines 260-265: the advisory duplicate warning shown before submit. -/
def advisoryDup (t : RTable) (cm : ColMap) (entry : List (Str × Str)) : Bool :=
  let tc := titelColOf cm
  match lookupA tc entry with
  | some v => decide (tc ∈ t.cols) && !v.isEmpty && hasDupTitle t tc v
  | none => false

/-- Lines 267-277: the submit path of the add-book page — `none` when the
insert is rejected (`st.stop`, table unchanged), `some` of the
concatenated table otherwise. -/
def submitInsert (t : RTable) (cm : ColMap) (entry : List (Str × Str)) : Option RTable :=
  let tc := titelColOf cm
  let blocked :=
    match lookupA tc entry with
    | some v => decide (tc ∈ t.cols) && !v.isEmpty && hasDupTitle t tc v
    | none => false
  if blocked then none else some (concatRow t entry)

/-- Lines 74-80: `delete_book` — `df.drop(index)` followed by
`reset_index(drop=True)`, i.e. removal by position. -/
def deleteRow (t : RTable) (i : Nat) : RTable :=
  { t with rows := t.rows.eraseIdx i }

theorem rowTitleLowEq_iff (tc v : Str) (r : Rec) :
    rowTitleLowEq tc v r = true ↔ ∃ w, cellR r tc = some w ∧ lower w = lower v := by
  unfold rowTitleLowEq
  cases h : cellR r tc with
  | none => simp
  | some w => simp [beq_iff_eq]

/-- Claim C5, counterexample: with an empty candidate title, the code skips
the duplicate check entirely (Python falsiness of `""`), so an insert is
NOT rejected even though a record with a case-insensitively equal (empty)
title exists at submit time — "rejected exactly when a duplicate exists"
fails. -/
theorem C5_counterexample :
    hasDupTitle ⟨[str "titel"], [[(str "titel", some (str ""))]]⟩ (str "titel") (str "")
      = true ∧
    submitInsert ⟨[str "titel"], [[(str "titel", some (str ""))]]⟩
      (resolveRoles [str "titel"]) [(str "titel", str "")] ≠ none := by
  decide

/-- Claim C5, amended: insert is rejected exactly when the title column is
present, the candidate title is non-empty, AND a record with a
case-insensitively equal title exists at submit time (the table is then
left unchanged); the advisory duplicate display and the submit-time check
use identical comparison semantics, so they agree on every table and
candidate; when not rejected, the submit appends the concatenated row. -/
theorem C5_theorem (t : RTable) (cm : ColMap) (entry : List (Str × Str)) :
    (advisoryDup t cm entry = true ↔ submitInsert t cm entry = none) ∧
    (submitInsert t cm entry = none ↔
      (titelColOf cm ∈ t.cols ∧
        ∃ v, lookupA (titelColOf cm) entry = some v ∧ v ≠ [] ∧
          ∃ r ∈ t.rows, ∃ w, cellR r (titelColOf cm) = some w ∧ lower w = lower v)) ∧
    (submitInsert t cm entry = none ∨
      submitInsert t cm entry = some (concatRow t entry)) := by
  refine ⟨?_, ?_, ?_⟩
  · simp only [advisoryDup, submitInsert]
    cases hlk : lookupA (titelColOf cm) entry with
    | none => simp
    | some v =>
      by_cases hb : (decide (titelColOf cm ∈ t.cols) && !v.isEmpty &&
          hasDupTitle t (titelColOf cm) v) = true
      · simp [hb]
      · simp [hb]
  · simp only [submitInsert]
    cases hlk : lookupA (titelColOf cm) entry with
    | none => simp
    | some v =>
      by_cases hb : (decide (titelColOf cm ∈ t.cols) && !v.isEmpty &&
          hasDupTitle t (titelColOf cm) v) = true
      · simp only [hb, if_pos rfl, reduceIte, true_iff]
        simp only [Bool.and_eq_true, decide_eq_true_eq, Bool.not_eq_eq_eq_not,
          Bool.not_true] at hb
        obtain ⟨⟨hin, hne⟩, hdup⟩ := hb
        refine ⟨hin, v, rfl, ?_, ?_⟩
        · intro hveq
          rw [hveq] at hne
          simp [List.isEmpty_iff] at hne
        · obtain ⟨r, hr, hpr⟩ := List.any_eq_true.mp hdup
          exact ⟨r, hr, (rowTitleLowEq_iff (titelColOf cm) v r).mp hpr⟩
      · rw [if_neg hb]
        constructor
        · intro hx
          exact Option.noConfusion hx
        · intro hx
          exfalso
          obtain ⟨hin, v2, hv2, hvne, r, hr, w, hw, hlow⟩ := hx
          injection hv2 with hv3
          subst hv3
          refine hb ?_
          simp only [Bool.and_eq_true, decide_eq_true_eq]
          refine ⟨⟨hin, ?_⟩, ?_⟩
          · rw [Bool.not_eq_eq_eq_not, Bool.not_true]
            rw [← Bool.not_eq_true]
            intro hemp
            exact hvne (List.isEmpty_iff.mp hemp)
          · exact List.any_eq_true.mpr ⟨r, hr,
              (rowTitleLowEq_iff (titelColOf cm) v r).mpr ⟨w, hw, hlow⟩⟩
  · simp only [submitInsert]
    cases hlk : lookupA (titelColOf cm) entry with
    | none => simp
    | some v =>
      by_cases hb : (decide (titelColOf cm ∈ t.cols) && !v.isEmpty &&
          hasDupTitle t (titelColOf cm) v) = true
      · simp [hb]
      · simp [hb]

/-- Claim C5, witness: the amended equivalences at a concrete table and
candidate. -/
theorem C5_witness :
    advisoryDup ⟨[str "titel"], [[(str "titel", some (str "Dune"))]]⟩
        (resolveRoles [str "titel"]) [(str "titel", str "dune")] = true ↔
      submitInsert ⟨[str "titel"], [[(str "titel", some (str "Dune"))]]⟩
        (resolveRoles [str "titel"]) [(str "titel", str "dune")] = none :=
  (C5_theorem ⟨[str "titel"], [[(str "titel", some (str "Dune"))]]⟩
    (resolveRoles [str "titel"]) [(str "titel", str "dune")]).1

/-- Claim C6, confirmed: on the table with titles `"Dune"` and `"dune"`,
the duplicate scan (case-insensitive) returns both positions, while the
exact (case-sensitive) title lookup returns only position 0, which is also
the first matching position taken by `match_idx[0]`. -/
theorem C6_theorem :
    dupPositions
        ⟨[str "titel", str "auteur"],
         [[(str "titel", some (str "Dune")), (str "auteur", some (str "Herbert"))],
          [(str "titel", some (str "dune")), (str "auteur", some (str "X"))]]⟩
        (str "titel") (str "Dune") = [0, 1] ∧
    matchPositions
        ⟨[str "titel", str "auteur"],
         [[(str "titel", some (str "Dune")), (str "auteur", some (str "Herbert"))],
          [(str "titel", some (str "dune")), (str "auteur", some (str "X"))]]⟩
        (str "titel") (str "Dune") = [0] ∧
    findByTitle
        ⟨[str "titel", str "auteur"],
         [[(str "titel", some (str "Dune")), (str "auteur", some (str "Herbert"))],
          [(str "titel", some (str "dune")), (str "auteur", some (str "X"))]]⟩
        (str "titel") (str "Dune") = some 0 := by
  decide

theorem lookupA_map_fn {α : Type} (c : Str) (f : Str → α) (l : List Str) (h : c ∈ l) :
    lookupA c (l.map (fun k => (k, f k))) = some (f c) := by
  induction l with
  | nil => cases h
  | cons k t ih =>
    rw [List.map_cons, lookupA]
    by_cases hk : k = c
    · subst hk
      rw [if_pos rfl]
    · rw [if_neg hk]
      rcases List.mem_cons.mp h with rfl | hm
      · exact absurd rfl hk
      · exact ih hm

/-- Claim C7, counterexample: Insert with `fieldValues={titel:"New Book"}`
on a table with columns `[titel, auteur]` appends a record whose `auteur`
field is NaN (`pd.concat` fills missing columns with NaN), not the empty
string the claim predicts. -/
theorem C7_counterexample :
    submitInsert ⟨[str "titel", str "auteur"], []⟩ (resolveRoles [str "titel", str "auteur"])
        [(str "titel", str "New Book")]
      = some ⟨[str "titel", str "auteur"],
          [[(str "titel", some (str "New Book")), (str "auteur", none)]]⟩ ∧
    (none : Option Str) ≠ some (str "") := by
  decide

/-- Claim C7, amended: Insert appends exactly one new record to the end of
the table; in the new record every table column takes the entry's value
when the entry has that column and the missing-value marker NaN (not the
empty string) when it does not. -/
theorem C7_theorem (t : RTable) (entry : List (Str × Str)) :
    (concatRow t entry).rows.length = t.rows.length + 1 ∧
    ∃ nr, (concatRow t entry).rows.getLast? = some nr ∧
      ∀ c ∈ t.cols, lookupA c nr = some (lookupA c entry) := by
  constructor
  · simp [concatRow]
  · refine ⟨(t.cols ++ (entry.map Prod.fst).filter (fun k => decide (k ∉ t.cols))).map
      (fun c => (c, lookupA c entry)), ?_, ?_⟩
    · simp [concatRow, List.getLast?_append]
    · intro c hc
      exact lookupA_map_fn c (fun c2 => lookupA c2 entry) _ (List.mem_append_left _ hc)

/-- Claim C7, witness: the amended theorem at a concrete table and entry. -/
theorem C7_witness :
    (concatRow ⟨[str "titel"], []⟩ [(str "titel", str "x")]).rows.length
      = ([] : List Rec).length + 1 :=
  (C7_theorem ⟨[str "titel"], []⟩ [(str "titel", str "x")]).1

/-- Claim C8, confirmed: for a row `p` whose title cell holds the value
`v`, Find-by-title on `v` returns some position `i` (the first exact
match); deleting at `i` removes exactly one record, reduces the length by
exactly one, and shifts every record after position `i` down by one. -/
theorem C8_theorem (t : RTable) (p : Nat) (tc v : Str) (r : Rec)
    (hp : t.rows[p]? = some r) (hv : cellR r tc = some v) :
    ∃ i, findByTitle t tc v = some i ∧ i < t.rows.length ∧
      (deleteRow t i).rows.length + 1 = t.rows.length ∧
      ∀ j, (deleteRow t i).rows[j]? = if j < i then t.rows[j]? else t.rows[j + 1]? := by
  have hmem : r ∈ t.rows := List.getElem?_mem hp
  have hne : t.rows.findIdx? (fun r2 => cellR r2 tc == some v) ≠ none := by
    intro hnone
    have hall := List.findIdx?_eq_none_iff.mp hnone
    have := hall r hmem
    rw [hv] at this
    simp at this
  obtain ⟨i, hi⟩ := Option.ne_none_iff_exists'.mp hne
  have hbound := (List.findIdx?_eq_some_iff_findIdx_eq.mp hi).1
  refine ⟨i, hi, hbound, ?_, ?_⟩
  · simp only [deleteRow]
    rw [List.length_eraseIdx, if_pos hbound]
    omega
  · intro j
    simp only [deleteRow]
    exact List.getElem?_eraseIdx t.rows i j

/-- Claim C8, witness: the theorem applied at a concrete one-row table. -/
theorem C8_witness :
    ∃ i, findByTitle ⟨[str "titel"], [[(str "titel", some (str "A"))]]⟩ (str "titel")
        (str "A") = some i ∧
      i < (⟨[str "titel"], [[(str "titel", some (str "A"))]]⟩ : RTable).rows.length ∧
      (deleteRow ⟨[str "titel"], [[(str "titel", some (str "A"))]]⟩ i).rows.length + 1
        = (⟨[str "titel"], [[(str "titel", some (str "A"))]]⟩ : RTable).rows.length ∧
      ∀ j, (deleteRow ⟨[str "titel"], [[(str "titel", some (str "A"))]]⟩ i).rows[j]?
        = if j < i then (⟨[str "titel"], [[(str "titel", some (str "A"))]]⟩ :
            RTable).rows[j]?
          else (⟨[str "titel"], [[(str "titel", some (str "A"))]]⟩ : RTable).rows[j + 1]? :=
  C8_theorem ⟨[str "titel"], [[(str "titel", some (str "A"))]]⟩ 0 (str "titel") (str "A")
    [(str "titel", some (str "A"))] (by decide) (by decide)
